import Mathlib

/-!
Shallow embedding of the recycling-tree crate (src/src/*.rs): a reference
counted tree of values with a tree-global free list, deferred reclamation,
resurrection and an adaptive child map.

The embedding is sequential: atomics become plain reads and writes on an
explicit heap, a compare-exchange succeeds exactly when the current value
equals the expected one (no interference, so the weak CAS retry loop of the
source converges in one step), and the iterative loops of the source take an
explicit fuel argument.  Each operation returns, next to its result and the
updated state, the list of observable events it performed: lock acquisitions
and releases, logger invocations and key-function applications.  Rust panics
are modelled with `Except String`; `usize` values that never approach the word
size in any analysed run are modelled with `Nat`.
-/

namespace RecyclingTree

/-- Identifier of an allocated node record (the stable address of the cell). -/
abbrev NodeId := Nat

/-- The pointer part of a `next_free` word: null, the `DANGLING_PTR` sentinel,
or a plain aligned pointer to a node record. -/
inductive Ptr where
  | null
  | dangling
  | node (i : NodeId)
deriving DecidableEq

/-- A `next_free` word: a pointer together with its low tag bit (the free-list
lock bit).  Under the minimum alignment the bit of a plain node pointer is 0. -/
abbrev FreeWord := Ptr × Bool

/-- The all-zero word, `ptr::null_mut()`. -/
def NULL_WORD : FreeWord := (Ptr.null, false)

/-- `NodeInner::DANGLING_PTR`, the non-null sentinel marking an empty free
list (as root head) or the last item of the list (as node link). -/
def DANGLING_WORD : FreeWord := (Ptr.dangling, false)

/-- `ptr | 1`: set the low lock bit. -/
def lockWord (w : FreeWord) : FreeWord := (w.1, true)

/-- `ptr & !1`: clear the low lock bit. -/
def stripWord (w : FreeWord) : FreeWord := (w.1, false)

/-- A plain pointer word to node `i`. -/
def nodeWord (i : NodeId) : FreeWord := (Ptr.node i, false)

/-- `ptr.is_null()`: true only for the all-zero word. -/
def isNullWord (w : FreeWord) : Bool := w = NULL_WORD

/-- The adaptive child map of map.rs: empty, a single entry, or a hash map.
The boxed `FxHashMap` is modelled as an association list with the standard
library hash-map semantics for lookup, insert and entry. -/
inductive Map (K A : Type) where
  | empty
  | one (v : A)
  | hmap (m : List (K × A))
deriving DecidableEq

/-- `HashMap::get`. -/
def hmGet {K A : Type} [DecidableEq K] (m : List (K × A)) (key : K) : Option A :=
  (m.find? (fun p => decide (p.1 = key))).map (fun p => p.2)

/-- `HashMap::insert`: stores the binding and returns the previous value at
that key, `none` if the key was absent. -/
def hmInsert {K A : Type} [DecidableEq K] (m : List (K × A)) (key : K) (v : A) :
    List (K × A) × Option A :=
  match hmGet m key with
  | some old => (m.map (fun p => if p.1 = key then (key, v) else p), some old)
  | none => (m ++ [(key, v)], none)

/-- `HashMap::remove`. -/
def hmRemove {K A : Type} [DecidableEq K] (m : List (K × A)) (key : K) :
    List (K × A) × Option A :=
  (m.filter (fun p => decide (p.1 ≠ key)), hmGet m key)

/-- `map.entry(key).or_insert_with(new_value)`, with a possibly panicking and
stateful `new_value` closure as in `Node::ensure_child`. -/
def hmEntryOrInsertWith {K A σ : Type} [DecidableEq K] (m : List (K × A)) (key : K)
    (new_value : σ → Except String (A × σ)) (st : σ) :
    Except String (A × List (K × A) × σ) :=
  match hmGet m key with
  | some v => .ok (v, m, st)
  | none =>
    match new_value st with
    | .error e => .error e
    | .ok (v, st) => .ok (v, (hmInsert m key v).1, st)

/-- `Map::get` from map.rs.  Returns the lookup result together with the list
of stored values the `key_from_value` closure was applied to. -/
def Map.get {K A : Type} [DecidableEq K] (self : Map K A) (key : K)
    (key_from_value : A → K) : Option A × List A :=
  match self with
  | .one one_v => (if key = key_from_value one_v then some one_v else none, [one_v])
  | .hmap m => (hmGet m key, [])
  | .empty => (none, [])

/-- `Map::get_or_insert_with` from map.rs.  On the *one* state with a
non-matching key the source inserts the detached singleton into a fresh hash
map and calls `.unwrap()` on the `Option` returned by `insert`; inserting into
a fresh map returns `None`, so that path panics.  Returns the value, the
updated map, the threaded state of the `new_value` closure and the list of
stored values `key_from_value` was applied to. -/
def Map.get_or_insert_with {K A σ : Type} [DecidableEq K] (self : Map K A) (key : K)
    (key_from_value : A → K) (new_value : σ → Except String (A × σ)) (st : σ) :
    Except String (A × Map K A × σ × List A) :=
  match self with
  | .empty =>
    match new_value st with
    | .error e => .error e
    | .ok (v, st) => .ok (v, .one v, st, [])
  | .one one_v =>
    let one_key := key_from_value one_v
    if key = one_key then
      .ok (one_v, .one one_v, st, [one_v])
    else
      match hmInsert ([] : List (K × A)) one_key one_v with
      | (m, some _) =>
        -- Unreachable in the source: `insert` into the fresh map cannot
        -- return a previous value; kept for a faithful translation.
        (match hmEntryOrInsertWith m key new_value st with
         | .error e => .error e
         | .ok (v, m, st) => .ok (v, .hmap m, st, [one_v]))
      | (_, none) => .error "called Option unwrap on a None value"
  | .hmap m =>
    match hmEntryOrInsertWith m key new_value st with
    | .error e => .error e
    | .ok (v, m, st) => .ok (v, .hmap m, st, [])

/-- `Map::remove` from map.rs.  Returns the removed value, the updated map and
the list of stored values `key_from_value` was applied to. -/
def Map.remove {K A : Type} [DecidableEq K] (self : Map K A) (key : K)
    (key_from_value : A → K) : Option A × Map K A × List A :=
  match self with
  | .one one_v =>
    if key = key_from_value one_v then (some one_v, .empty, [one_v])
    else (none, .one one_v, [one_v])
  | .hmap m =>
    match hmRemove m key with
    | (m, r) => (r, .hmap m, [])
  | .empty => (none, .empty, [])

/-- The values stored in an adaptive map. -/
def Map.values {K A : Type} : Map K A → List A
  | .empty => []
  | .one v => [v]
  | .hmap m => m.map (fun p => p.2)

/-- The contents of a node record (`NodeInner` of core.rs), with `V = Nat` and
`K = Nat`.  `ancestors` is the optional `(root, parent)` pair; the children
map stores raw node identifiers. -/
structure NodeRec where
  value : Nat
  ancestors : Option (NodeId × NodeId)
  children : Map Nat NodeId
  refcount : Nat
  next_free : FreeWord
  free_count : Nat
deriving DecidableEq

instance : Inhabited NodeRec :=
  ⟨{ value := 0, ancestors := none, children := .empty, refcount := 0,
     next_free := NULL_WORD, free_count := 0 }⟩

/-- The heap: allocated node records addressed by identifier, plus the next
fresh identifier. -/
structure St where
  heap : List (NodeId × NodeRec)
  next_id : NodeId
deriving DecidableEq

/-- Observable events of an operation, in program order. -/
inductive Ev where
  /-- acquiring the upgradable read lock on the children map of a node -/
  | acqUpRead (i : NodeId)
  /-- upgrading that lock to a write lock (keeps the lock held) -/
  | upgradeLock (i : NodeId)
  /-- acquiring the write lock on the children map of a node -/
  | acqWrite (i : NodeId)
  /-- releasing a children-map lock (guard drop) -/
  | relLock (i : NodeId)
  /-- acquiring the free-list bit lock on the root head word -/
  | acqFree
  /-- releasing the free-list bit lock -/
  | relFree
  /-- `Logger::log_new` on node `i` -/
  | logNew (i : NodeId)
  /-- `Logger::log_drop` on node `i` -/
  | logDrop (i : NodeId)
  /-- the key function applied to the value of node `i` (`NodeInner::key`) -/
  | keyOfNode (i : NodeId)
  /-- the key function applied to the `value` argument of `ensure_child` -/
  | keyOfArg
deriving DecidableEq

/-- Look a node record up in the heap. -/
def lookupNode (s : St) (i : NodeId) : Option NodeRec :=
  (s.heap.find? (fun p => p.1 == i)).map (fun p => p.2)

/-- Dereference a node pointer; derefs in the source are only performed on
valid pointers, so the default record is never observed in analysed runs. -/
def getN (s : St) (i : NodeId) : NodeRec :=
  (lookupNode s i).getD default

/-- Overwrite the record at `i`. -/
def setNode (s : St) (i : NodeId) (r : NodeRec) : St :=
  { s with heap := s.heap.map (fun p => if p.1 == i then (i, r) else p) }

/-- Deallocate the record at `i` (`UnsafeNode::drop`). -/
def removeNode (s : St) (i : NodeId) : St :=
  { s with heap := s.heap.filter (fun p => p.1 != i) }

/-- Allocate a fresh record (`UnsafeNode::new`). -/
def alloc (s : St) (r : NodeRec) : NodeId × St :=
  (s.next_id, { heap := s.heap ++ [(s.next_id, r)], next_id := s.next_id + 1 })

def setRc (s : St) (i : NodeId) (n : Nat) : St :=
  setNode s i { getN s i with refcount := n }

def setNextFree (s : St) (i : NodeId) (w : FreeWord) : St :=
  setNode s i { getN s i with next_free := w }

def setChildren (s : St) (i : NodeId) (m : Map Nat NodeId) : St :=
  setNode s i { getN s i with children := m }

def setAncestors (s : St) (i : NodeId) (a : Option (NodeId × NodeId)) : St :=
  setNode s i { getN s i with ancestors := a }

def setFreeCount (s : St) (i : NodeId) (n : Nat) : St :=
  setNode s i { getN s i with free_count := n }

/-- `GC_COUNT_THRESHOLD` of core.rs. -/
def GC_COUNT_THRESHOLD : Nat := 300

/-- `UnsafeNode::push_on_free_list` (core.rs 304-356).  `this.root().unwrap()`
panics if the node has no ancestors.  The push loop is translated for an
interference-free execution: the weak compare-exchange succeeds exactly when
the loaded head still equals the expected (stripped) word, which in a
sequential run is always the case on the first attempt. -/
def push_on_free_list (s : St) (this_ : NodeId) :
    Except String (Bool × St × List Ev) :=
  match (getN s this_).ancestors with
  | none => .error "called Option unwrap on a None value"
  | some (root_, _) =>
    let old_head := (getN s root_).next_free
    if isNullWord old_head then
      -- Tree was dropped and free list has been destroyed.
      .ok (false, s, [])
    else
      let old_head := stripWord old_head
      if old_head = nodeWord this_ then
        -- This very node is already at the head of the free list.
        .ok (true, s, [])
      else if (getN s root_).next_free = old_head then
        -- compare_exchange_weak(old_head, this_lock, Acquire, Relaxed): the
        -- lock bit is now held by us.
        let s := setNextFree s root_ (lockWord (nodeWord this_))
        if ¬ isNullWord (getN s this_).next_free then
          -- A resurrection already put the node on the list; unlock with the
          -- head we read last.
          .ok (true, setNextFree s root_ old_head, [Ev.acqFree, Ev.relFree])
        else
          let s := setRc s this_ ((getN s this_).refcount + 1)
          let s := setFreeCount s root_ ((getN s root_).free_count + 1)
          let s := setNextFree s this_ old_head
          let s := setNextFree s root_ (nodeWord this_)
          .ok (true, s, [Ev.acqFree, Ev.relFree])
      else .error "free list head contention"

/-- `UnsafeNode::drop_without_free_list` (core.rs 257-300), the iterative
reclamation cascade.  The `loop` is translated with a fuel argument; fuel
exhaustion is a translation artifact that no analysed run reaches. -/
def drop_without_free_list (kf : Nat → Nat) :
    Nat → St → NodeId → Except String (St × List Ev)
  | 0, _, _ => .error "insufficient cascade fuel"
  | fuel + 1, s, this_ =>
    match (getN s this_).ancestors with
    | some (_, parent) =>
      -- let mut children = parent.children.write();
      if (getN s this_).refcount ≠ 0 then
        -- Another thread resurrected this node: release the lock, abort.
        .ok (s, [Ev.acqWrite parent, Ev.relLock parent])
      else
        let s := setNextFree s this_ NULL_WORD
        let k := kf (getN s this_).value
        let r := Map.remove (getN s parent).children k (fun c => kf (getN s c).value)
        let s := setChildren s parent r.2.1
        let evs := [Ev.acqWrite parent, Ev.keyOfNode this_]
            ++ r.2.2.map Ev.keyOfNode ++ [Ev.relLock parent]
        -- fence(Acquire); take the ancestors pair, extracting the parent
        -- handle so it is not dropped recursively.
        let s := setAncestors s this_ none
        -- Logger::log_drop(id); UnsafeNode::drop(cur)
        let s := removeNode s this_
        let evs := evs ++ [Ev.logDrop this_]
        let prior := (getN s parent).refcount
        let s := setRc s parent (prior - 1)
        if prior = 1 then
          match drop_without_free_list kf fuel s parent with
          | .error e => .error e
          | .ok (s, evs2) => .ok (s, evs ++ evs2)
        else .ok (s, evs)
    | none =>
      -- No parent link: fence, log_drop, deallocate, return.
      .ok (removeNode s this_, [Ev.logDrop this_])

/-- `Drop for Node` (core.rs 359-379): release one reference; on the 1 → 0
transition route the node to the free list, or to the cascade if it is the
root or the list is gone.  The 0 → wrap underflow of `fetch_sub` cannot occur
in an analysed run, so `Nat` truncation at 0 is inconsequential. -/
def node_drop (kf : Nat → Nat) (fuel : Nat) (s : St) (this_ : NodeId) :
    Except String (St × List Ev) :=
  let prior := (getN s this_).refcount
  let s := setRc s this_ (prior - 1)
  if prior ≠ 1 then .ok (s, [])
  else
    match (getN s this_).ancestors with
    | none => drop_without_free_list kf fuel s this_
    | some _ =>
      match push_on_free_list s this_ with
      | .error e => .error e
      | .ok (true, s, evs) => .ok (s, evs)
      | .ok (false, s, evs) =>
        match drop_without_free_list kf fuel s this_ with
        | .error e => .error e
        | .ok (s, evs2) => .ok (s, evs ++ evs2)

/-- `Clone for Node` (core.rs 237-249): relaxed increment. -/
def node_clone (s : St) (this_ : NodeId) : St × List Ev :=
  (setRc s this_ ((getN s this_).refcount + 1), [])

/-- `Tree::with_logger` (core.rs 73-87): allocate the root record and log its
creation.  The root value is never accessed afterwards. -/
def with_logger (root_value : Nat) : NodeId × St × List Ev :=
  let inner : NodeRec :=
    { value := root_value, ancestors := none, children := .empty,
      refcount := 1, next_free := DANGLING_WORD, free_count := 0 }
  let r := alloc { heap := [], next_id := 0 } inner
  (r.1, r.2, [Ev.logNew r.1])

/-- `Tree::new` (core.rs 58-60). -/
def tree_new (root_value : Nat) : NodeId × St × List Ev := with_logger root_value

/-- `Node::ensure_child` (core.rs 190-234).  On a hit, revive the child; on a
miss, upgrade the lock and insert a fresh node whose creation closure clones
`this.root().unwrap()` — a panic when `self` is the root, whose ancestors
field is `None`. -/
def ensure_child (kf : Nat → Nat) (s : St) (self_ : NodeId) (value : Nat) :
    Except String (NodeId × St × List Ev) :=
  -- let children = this.children.upgradable_read();
  -- let key = (&value).into();
  let key := kf value
  let g := Map.get (getN s self_).children key (fun c => kf (getN s c).value)
  let evs := [Ev.acqUpRead self_, Ev.keyOfArg] ++ g.2.map Ev.keyOfNode
  match g.1 with
  | some child =>
    -- child.refcount.fetch_add(1, Relaxed) == 0: push the revived node
    -- on the free list ourselves.
    let prior := (getN s child).refcount
    let s := setRc s child (prior + 1)
    if prior = 0 then
      match push_on_free_list s child with
      | .error e => .error e
      | .ok (_, s, evs2) => .ok (child, s, evs ++ evs2 ++ [Ev.relLock self_])
    else
      .ok (child, s, evs ++ [Ev.relLock self_])
  | none =>
    -- RwLockUpgradableReadGuard::upgrade(children); re-check and insert.
    let new_value : St → Except String (NodeId × St) := fun s =>
      -- let root = unsafe { UnsafeNode::clone(this.root().unwrap()) };
      match (getN s self_).ancestors with
      | none => .error "called Option unwrap on a None value"
      | some (root_, _) =>
        -- Ancestors::new(root, self.clone()): the raw root clone is not
        -- counted, the parent handle clone is.
        let s := setRc s self_ ((getN s self_).refcount + 1)
        let inner : NodeRec :=
          { value := value, ancestors := some (root_, self_), children := .empty,
            refcount := 1, next_free := NULL_WORD, free_count := 0 }
        let r := alloc s inner
        .ok (r.1, r.2)
    match Map.get_or_insert_with (getN s self_).children key
        (fun c => kf (getN s c).value) new_value s with
    | .error e => .error e
    | .ok (nid, m, s, applied) =>
      let s := setChildren s self_ m
      -- Logger::log_new fires while the write guard is still live: the guard
      -- is only dropped at the end of the function body.
      .ok (nid, s,
        evs ++ [Ev.upgradeLock self_] ++ applied.map Ev.keyOfNode
            ++ [Ev.logNew nid, Ev.relLock self_])

/-- The drain loop of `Tree::swap_free_list_and_gc` (core.rs 149-166): walk
the captured chain, swap each node's `next_free` with null, then drop the
node through `Drop for Node`. -/
def gc_drain (kf : Nat → Nat) (cfuel : Nat) :
    Nat → St → FreeWord → Except String (St × List Ev)
  | 0, _, _ => .error "insufficient drain fuel"
  | dfuel + 1, s, head =>
    if head = DANGLING_WORD then .ok (s, [])
    else
      match head with
      | (Ptr.node i, _) =>
        let next := (getN s i).next_free
        let s := setNextFree s i NULL_WORD
        match node_drop kf cfuel s i with
        | .error e => .error e
        | .ok (s, evs) =>
          match gc_drain kf cfuel dfuel s next with
          | .error e => .error e
          | .ok (s, evs2) => .ok (s, evs ++ evs2)
      | _ => .error "invalid free list entry"

/-- `Tree::swap_free_list_and_gc` (core.rs 113-166): swap the head with `p`
(without breaking a held lock bit) and drain the captured chain. -/
def swap_free_list_and_gc (kf : Nat → Nat) (cfuel dfuel : Nat) (s : St)
    (rootId : NodeId) (p : FreeWord) : Except String (St × List Ev) :=
  let head := (getN s rootId).next_free
  if head = p then .ok (s, [])
  else
    let head := stripWord head
    if (getN s rootId).next_free = head then
      -- compare_exchange_weak(head, p, AcqRel, Relaxed) succeeds.
      gc_drain kf cfuel dfuel (setNextFree s rootId p) head
    else .error "free list head contention"

/-- Enough fuel for any cascade or drain on state `s`: both visit pairwise
distinct allocated records. -/
def bigFuel (s : St) : Nat := s.heap.length + 1

/-- `Tree::gc` (core.rs 105-107): swap-and-drain with new head `DANGLING`. -/
def Tree.gc (kf : Nat → Nat) (s : St) (rootId : NodeId) :
    Except String (St × List Ev) :=
  swap_free_list_and_gc kf (bigFuel s) (bigFuel s) s rootId DANGLING_WORD

/-- `Tree::maybe_gc` (core.rs 98-102): run `gc` when `free_count` exceeds the
threshold. -/
def Tree.maybe_gc (kf : Nat → Nat) (s : St) (rootId : NodeId) :
    Except String (St × List Ev) :=
  if (getN s rootId).free_count > GC_COUNT_THRESHOLD then Tree.gc kf s rootId
  else .ok (s, [])

/-- `Drop for Tree` (core.rs 169-178) followed by the release of the tree's
root handle: swap-and-drain with new head null, then drop the root. -/
def Tree.tree_drop (kf : Nat → Nat) (s : St) (rootId : NodeId) :
    Except String (St × List Ev) :=
  match swap_free_list_and_gc kf (bigFuel s) (bigFuel s) s rootId NULL_WORD with
  | .error e => .error e
  | .ok (s, evs) =>
    match node_drop kf (bigFuel s) s rootId with
    | .error e => .error e
    | .ok (s, evs2) => .ok (s, evs ++ evs2)

/-! ## Observers and concrete states -/

/-- Length of the free-list chain hanging off a word. -/
def chain_length (s : St) : Nat → FreeWord → Nat
  | 0, _ => 0
  | fuel + 1, w =>
    match w.1 with
    | Ptr.node i => chain_length s fuel (getN s i).next_free + 1
    | _ => 0

/-- Number of nodes currently linked in the tree's free list. -/
def free_list_length (s : St) (rootId : NodeId) : Nat :=
  chain_length s (bigFuel s) (stripWord (getN s rootId).next_free)

/-- Lock-depth contribution of an event. -/
def evDepth : Ev → Int
  | .acqUpRead _ => 1
  | .acqWrite _ => 1
  | .acqFree => 1
  | .relLock _ => -1
  | .relFree => -1
  | _ => 0

def isLogEv : Ev → Bool
  | .logNew _ => true
  | .logDrop _ => true
  | _ => false

/-- The logger events of a trace together with the number of locks held by
the operation at the moment each fires. -/
def log_depths : Int → List Ev → List (Ev × Int)
  | _, [] => []
  | d, e :: tr => (if isLogEv e then [(e, d)] else []) ++ log_depths (d + evDepth e) tr

/-- Every logger invocation in the trace happens outside any lock. -/
def logs_outside_locks (tr : List Ev) : Bool :=
  (log_depths 0 tr).all (fun p => p.2 == 0)

/-- Net lock-depth change across a trace. -/
def depthDelta (tr : List Ev) : Int := (tr.map evDepth).sum

/-- Number of `on_destroy` notifications in a trace. -/
def countDrops (tr : List Ev) : Nat :=
  tr.countP (fun e => match e with | .logDrop _ => true | _ => false)

/-- The state right after `t = Tree::new(0)`: the root record alone. -/
def sNew : St := (tree_new 0).2.1

/-- A tree with value 0 at the root and one child of value 1 whose only
handle has been dropped, so the child sits on the free list: the root holds
the tree reference plus the child's parent reference, the child holds only
the list's reference.  This is the state scenario S2/S3 reaches after one
create-and-drop, with the intended (panic-free) child creation. -/
def sListed : St :=
  { heap := [
      (0, { value := 0, ancestors := none, children := .one 1, refcount := 2,
            next_free := nodeWord 1, free_count := 1 }),
      (1, { value := 1, ancestors := some (0, 0), children := .empty,
            refcount := 1, next_free := DANGLING_WORD, free_count := 0 })],
    next_id := 2 }

/-- Like `sListed` but the free list has been torn down (head null) and the
child still has one live handle. -/
def sTorn : St :=
  { heap := [
      (0, { value := 0, ancestors := none, children := .one 1, refcount := 2,
            next_free := NULL_WORD, free_count := 0 }),
      (1, { value := 1, ancestors := some (0, 0), children := .empty,
            refcount := 1, next_free := NULL_WORD, free_count := 0 })],
    next_id := 2 }

/-- Root with one live child and an empty free list. -/
def sOneChild : St :=
  { heap := [
      (0, { value := 0, ancestors := none, children := .one 1, refcount := 2,
            next_free := DANGLING_WORD, free_count := 0 }),
      (1, { value := 1, ancestors := some (0, 0), children := .empty,
            refcount := 1, next_free := NULL_WORD, free_count := 0 })],
    next_id := 2 }

/-- Scenario S4 builder: from `Tree::new(0)`, repeatedly call `ensure_child`
on the most recent handle with values 1..n, dropping the superseded interior
handle each time. -/
def build_chain (kf : Nat → Nat) : Nat → Except String (NodeId × St)
  | 0 => .ok ((tree_new 0).1, (tree_new 0).2.1)
  | n + 1 =>
    match build_chain kf n with
    | .error e => .error e
    | .ok (last, s) =>
      match ensure_child kf s last (n + 1) with
      | .error e => .error e
      | .ok (c, s, _) =>
        if n = 0 then .ok (c, s)
        else
          match node_drop kf (bigFuel s) s last with
          | .error e => .error e
          | .ok (s, _) => .ok (c, s)

/-! ## Claim theorems: concrete runs -/

/-- The state `Tree::gc` produces from `sListed`: the drained child has been
pushed right back onto the fresh free list by the `Drop for Node` call in the
drain loop, and `free_count` has been incremented a second time. -/
def sListedAfterGc : St :=
  { heap := [
      (0, { value := 0, ancestors := none, children := .one 1, refcount := 2,
            next_free := nodeWord 1, free_count := 2 }),
      (1, { value := 1, ancestors := some (0, 0), children := .empty,
            refcount := 1, next_free := DANGLING_WORD, free_count := 0 })],
    next_id := 2 }

/-- C1: the claim says every node drained by `Tree::gc` whose only remaining
reference was the free list's is destroyed and the free list ends empty.  On
`sListed` — one dropped child on the free list — the drain loop drops the
list's handle through `Drop for Node`, which observes the swapped-in
`DANGLING` head (non-null) and re-pushes the node: no `on_destroy` fires, the
node survives, and the list ends with the same single node linked. -/
theorem C1_gc_relists_instead_of_destroying :
    Tree.gc id sListed 0 = .ok (sListedAfterGc, [Ev.acqFree, Ev.relFree]) ∧
    countDrops [Ev.acqFree, Ev.relFree] = 0 ∧
    free_list_length sListedAfterGc 0 = 1 ∧
    (getN sListedAfterGc 1).refcount = 1 ∧
    (getN sListedAfterGc 1).next_free = DANGLING_WORD :=
  ⟨rfl, rfl, rfl, rfl, rfl⟩

/-- C2: the claim says `get_or_insert_with` on a *one* map with a
non-matching key promotes to the *map* state holding both entries and
returns the new value without panicking.  The source instead calls
`.unwrap()` on the `Option` returned by inserting the detached singleton into
the fresh hash map; that insert returns `None`, so the promotion path always
panics. -/
theorem C2_one_promotion_panics :
    Map.get_or_insert_with (Map.one 5) 2 (fun v => v)
      (fun (u : Unit) => .ok (7, u)) () =
    (.error "called Option unwrap on a None value" :
      Except String (Nat × Map Nat Nat × Unit × List Nat)) := rfl

/-- C3: the claim says `free_count` always equals the number of nodes linked
in the free list and is 0 after `Tree::gc` returns.  `free_count` is never
reset by the garbage collector, and the drain re-push increments it again:
after `gc` on `sListed` it reads 2 while exactly one node is linked. -/
theorem C3_free_count_not_reset_by_gc :
    (Tree.gc id sListed 0).map
      (fun r => ((getN r.1 0).free_count, free_list_length r.1 0)) =
    .ok (2, 1) := rfl

/-- C4: the claim describes the revive scenario `t = Tree::new(0);
drop(t.root().ensure_child(1)); c = t.root().ensure_child(1)`.  The very
first `ensure_child` on the root panics: the creation closure evaluates
`this.root().unwrap()` and the root's ancestors field is `None`, so the
scenario cannot run at all. -/
theorem C4_first_child_creation_panics :
    ensure_child id sNew 0 1 = .error "called Option unwrap on a None value" :=
  rfl

/-- Building a chain through `ensure_child` fails at its very first step, for
any requested length ≥ 1: the panic propagates through the builder. -/
theorem build_chain_err (n : Nat) :
    build_chain id (n + 1) = .error "called Option unwrap on a None value" := by
  induction n with
  | zero => rfl
  | succ m ih =>
    show build_chain id (m + 1 + 1) = _
    unfold build_chain
    rw [ih]

/-- C7: the claim's deep-chain scenario — build a chain of 10,000 nodes, drop
the leaf, drop the tree — cannot run: the first `ensure_child` on the root
panics in the creation closure (`this.root().unwrap()` on the root, whose
ancestors field is `None`), so the chain is never built. -/
theorem C7_deep_chain_scenario_panics :
    build_chain id 10000 = .error "called Option unwrap on a None value" :=
  build_chain_err 9999

/-- C8: the claim says `gc(); gc()` is observably equivalent to `gc()` and
`maybe_gc` at or below the threshold changes nothing.  The `maybe_gc` half
holds on `sListed` (`free_count = 1 ≤ 300`), but gc is not idempotent there:
each gc re-pushes the listed node and bumps `free_count` again — 2 after one
gc, 3 after two. -/
theorem C8_gc_not_idempotent :
    Tree.maybe_gc id sListed 0 = .ok (sListed, []) ∧
    (Tree.gc id sListed 0).map (fun r => (getN r.1 0).free_count) = .ok 2 ∧
    ((Tree.gc id sListed 0).bind (fun r => Tree.gc id r.1 0)).map
      (fun r => (getN r.1 0).free_count) = .ok 3 :=
  ⟨rfl, rfl, rfl⟩

/-- C9 counterexample: on `sOneChild`, `ensure_child` of a fresh grandchild
under node 1 succeeds and its trace calls `log_new` while the upgraded write
lock on the parent's children map is still held (the guard is dropped only at
the end of the function), so the claim "every logger invocation happens
outside any lock" is false on this run. -/
theorem C9_log_new_fires_under_write_lock :
    (ensure_child id sOneChild 1 42).map (fun r => logs_outside_locks r.2.2) =
    .ok false := rfl

/-! ## Heap access lemmas -/

theorem getN_of_lookup {s : St} {i : NodeId} {r : NodeRec}
    (h : lookupNode s i = some r) : getN s i = r := by
  unfold getN
  rw [h]
  rfl

theorem find_map_set_ne (l : List (NodeId × NodeRec)) (i j : NodeId) (r : NodeRec)
    (h : j ≠ i) :
    ((l.map fun p => if p.1 == i then (i, r) else p).find? fun p => p.1 == j) =
    (l.find? fun p => p.1 == j) := by
  induction l with
  | nil => rfl
  | cons a l ih =>
    rw [List.map_cons]
    by_cases ha : a.1 = i
    · rw [if_pos (show (a.1 == i) = true by simp [ha])]
      simp only [List.find?_cons]
      rw [show (((i, r) : NodeId × NodeRec).1 == j) = false by simp [Ne.symm h],
          show (a.1 == j) = false by simp [ha, Ne.symm h]]
      exact ih
    · rw [if_neg (show ¬(a.1 == i) = true by simp [ha])]
      simp only [List.find?_cons]
      by_cases haj : a.1 = j
      · rw [show (a.1 == j) = true by simp [haj]]
      · rw [show (a.1 == j) = false by simp [haj]]
        exact ih

theorem find_map_set_self (l : List (NodeId × NodeRec)) (i : NodeId) (r : NodeRec)
    (q : NodeId × NodeRec) (h : (l.find? fun p => p.1 == i) = some q) :
    ((l.map fun p => if p.1 == i then (i, r) else p).find? fun p => p.1 == i) =
    some (i, r) := by
  induction l with
  | nil => simp [List.find?] at h
  | cons a l ih =>
    rw [List.map_cons]
    by_cases ha : a.1 = i
    · rw [if_pos (show (a.1 == i) = true by simp [ha])]
      simp only [List.find?_cons]
      rw [show (((i, r) : NodeId × NodeRec).1 == i) = true by simp]
    · simp only [List.find?_cons] at h
      rw [show (a.1 == i) = false by simp [ha]] at h
      rw [if_neg (show ¬(a.1 == i) = true by simp [ha])]
      simp only [List.find?_cons]
      rw [show (a.1 == i) = false by simp [ha]]
      exact ih h

theorem lookup_setNode_ne {s : St} {i j : NodeId} (r : NodeRec) (h : j ≠ i) :
    lookupNode (setNode s i r) j = lookupNode s j := by
  show ((s.heap.map fun p => if p.1 == i then (i, r) else p).find? fun p => p.1 == j).map
      (fun p => p.2) = (s.heap.find? fun p => p.1 == j).map (fun p => p.2)
  rw [find_map_set_ne s.heap i j r h]

theorem getN_setNode_ne {s : St} {i j : NodeId} (r : NodeRec) (h : j ≠ i) :
    getN (setNode s i r) j = getN s j := by
  unfold getN
  rw [lookup_setNode_ne r h]

theorem lookup_setNode_self {s : St} {i : NodeId} {r0 : NodeRec} (r : NodeRec)
    (h : lookupNode s i = some r0) :
    lookupNode (setNode s i r) i = some r := by
  unfold lookupNode at h
  show ((s.heap.map fun p => if p.1 == i then (i, r) else p).find? fun p => p.1 == i).map
      (fun p => p.2) = some r
  match hf : s.heap.find? fun p => p.1 == i with
  | none => rw [hf] at h; simp at h
  | some q => rw [find_map_set_self s.heap i r q hf]; rfl

theorem getN_setNode_self {s : St} {i : NodeId} {r0 : NodeRec} (r : NodeRec)
    (h : lookupNode s i = some r0) :
    getN (setNode s i r) i = r :=
  getN_of_lookup (lookup_setNode_self r h)

/-! ## Claim theorems: the reclamation cascade and drop routing -/

/-- C6: when the cascade's re-check of a parented node's refcount under the
parent's children write lock observes a non-zero value (the node was
resurrected), the cascade releases the lock and aborts with no other effect:
the resulting state is exactly the input state — children maps, `next_free`,
refcounts, values and allocations untouched — and the trace holds only the
lock acquisition and release, in particular no `on_destroy`. -/
theorem C6_resurrected_recheck_aborts_cascade (kf : Nat → Nat) (fuel : Nat)
    (s : St) (i ro pa : NodeId)
    (ha : (getN s i).ancestors = some (ro, pa))
    (hrc : (getN s i).refcount ≠ 0) :
    drop_without_free_list kf (fuel + 1) s i =
      .ok (s, [Ev.acqWrite pa, Ev.relLock pa]) := by
  unfold drop_without_free_list
  rw [ha]
  simp [hrc]

/-- Closed instance of `C6_resurrected_recheck_aborts_cascade`: on
`sOneChild`, node 1 has a parent link to the root and refcount 1, and the
cascade aborts leaving the state untouched. -/
theorem C6_witness :
    (getN sOneChild 1).ancestors = some (0, 0) ∧
    (getN sOneChild 1).refcount ≠ 0 ∧
    drop_without_free_list id 5 sOneChild 1 =
      .ok (sOneChild, [Ev.acqWrite 0, Ev.relLock 0]) :=
  ⟨by decide, by decide,
    C6_resurrected_recheck_aborts_cascade id 4 sOneChild 1 0 0 (by decide) (by decide)⟩

/-- Clearing the lock bit of an unlocked word changes nothing. -/
theorem strip_unlocked (w : FreeWord) (h : w.2 = false) : stripWord w = w := by
  cases w with
  | mk p b => simp only [stripWord]; rw [show b = false from h]

/-- Unfolded characterisation of `push_on_free_list` for a parented node. -/
theorem push_spec (s0 : St) (i ro pa : NodeId)
    (hanc0 : (getN s0 i).ancestors = some (ro, pa)) :
    push_on_free_list s0 i =
      (if isNullWord (getN s0 ro).next_free then .ok (false, s0, [])
       else if stripWord (getN s0 ro).next_free = nodeWord i then .ok (true, s0, [])
       else if (getN s0 ro).next_free = stripWord (getN s0 ro).next_free then
         (let s1 := setNextFree s0 ro (lockWord (nodeWord i))
          if ¬ isNullWord (getN s1 i).next_free then
            .ok (true, setNextFree s1 ro (stripWord (getN s0 ro).next_free),
                 [Ev.acqFree, Ev.relFree])
          else
            let s2 := setRc s1 i ((getN s1 i).refcount + 1)
            let s3 := setFreeCount s2 ro ((getN s2 ro).free_count + 1)
            let s4 := setNextFree s3 i (stripWord (getN s0 ro).next_free)
            .ok (true, setNextFree s4 ro (nodeWord i), [Ev.acqFree, Ev.relFree]))
       else .error "free list head contention") := by
  unfold push_on_free_list
  rw [hanc0]

/-- C5: when a handle drop takes a node's refcount from 1 to 0, `Drop for
Node` routes reclamation as the claim states: a root node (ancestors absent)
skips the free list and goes straight to the reclamation cascade; otherwise
`push_on_free_list` is attempted and returns `false` exactly when the
free-list head word is observed null (tree torn down), and exactly in that
case the cascade runs on the node instead of the free list keeping it. -/
theorem C5_last_drop_routing (kf : Nat → Nat) (fuel : Nat) (s : St) (i : NodeId)
    (r : NodeRec) (hl : lookupNode s i = some r) (hrc : r.refcount = 1) :
    (r.ancestors = none →
      node_drop kf fuel s i = drop_without_free_list kf fuel (setRc s i 0) i) ∧
    (∀ ro pa, r.ancestors = some (ro, pa) → i ≠ ro →
      ((getN s ro).next_free).2 = false →
      ∃ b s2 tr, push_on_free_list (setRc s i 0) i = .ok (b, s2, tr) ∧
        (b = false ↔ (getN s ro).next_free = NULL_WORD) ∧
        (b = false →
          node_drop kf fuel s i = drop_without_free_list kf fuel (setRc s i 0) i) ∧
        (b = true → node_drop kf fuel s i = .ok (s2, tr))) := by
  have hg : getN s i = r := getN_of_lookup hl
  have hgi : getN (setRc s i 0) i = { r with refcount := 0 } := by
    unfold setRc
    rw [hg]
    exact getN_setNode_self _ hl
  have hstep : node_drop kf fuel s i =
      (match (getN (setRc s i 0) i).ancestors with
       | none => drop_without_free_list kf fuel (setRc s i 0) i
       | some _ =>
         match push_on_free_list (setRc s i 0) i with
         | .error e => .error e
         | .ok (true, s, evs) => .ok (s, evs)
         | .ok (false, s2, evs) =>
           match drop_without_free_list kf fuel s2 i with
           | .error e => .error e
           | .ok (s3, evs2) => .ok (s3, evs ++ evs2)) := by
    unfold node_drop
    rw [hg, hrc]
    simp
  refine ⟨?_, ?_⟩
  · intro hanc
    rw [hstep, hgi]
    rw [show ({ r with refcount := 0 } : NodeRec).ancestors = r.ancestors from rfl, hanc]
  · intro ro pa hanc hne hlock
    have hanc0 : (getN (setRc s i 0) i).ancestors = some (ro, pa) := by
      rw [hgi]; exact hanc
    have hro : getN (setRc s i 0) ro = getN s ro := by
      unfold setRc; exact getN_setNode_ne _ (Ne.symm hne)
    have hstrip : stripWord (getN s ro).next_free = (getN s ro).next_free :=
      strip_unlocked _ hlock
    have hps := push_spec (setRc s i 0) i ro pa hanc0
    rw [hro, hstrip] at hps
    by_cases hw : (getN s ro).next_free = NULL_WORD
    · rw [if_pos (show isNullWord (getN s ro).next_free = true by
          simp [isNullWord, hw])] at hps
      refine ⟨false, setRc s i 0, [], hps, by simp [hw], fun _ => ?_, by simp⟩
      rw [hstep, hanc0, hps]
      cases hc : drop_without_free_list kf fuel (setRc s i 0) i with
      | error e => simp [hc]
      | ok p =>
        obtain ⟨s3, e3⟩ := p
        simp [hc]
    · rw [if_neg (show ¬ isNullWord (getN s ro).next_free = true by
          simp [isNullWord, hw])] at hps
      by_cases hww : (getN s ro).next_free = nodeWord i
      · rw [if_pos hww] at hps
        refine ⟨true, setRc s i 0, [], hps, by simp [hw], by simp, fun _ => ?_⟩
        rw [hstep, hanc0, hps]
      · rw [if_neg hww, if_pos rfl] at hps
        have hgi1 : getN (setNextFree (setRc s i 0) ro (lockWord (nodeWord i))) i
            = { r with refcount := 0 } := by
          unfold setNextFree
          rw [getN_setNode_ne _ hne]
          exact hgi
        simp only [hgi1] at hps
        by_cases hn : r.next_free = NULL_WORD
        · rw [show ({ r with refcount := 0 } : NodeRec).next_free = r.next_free from rfl,
              hn] at hps
          rw [if_neg (show ¬¬(isNullWord NULL_WORD = true) by simp [isNullWord])] at hps
          refine ⟨true, _, _, hps, by simp [hw], by simp, fun _ => ?_⟩
          rw [hstep, hanc0, hps]
        · rw [show ({ r with refcount := 0 } : NodeRec).next_free = r.next_free from rfl] at hps
          rw [if_pos (show ¬ isNullWord r.next_free = true by simp [isNullWord, hn])] at hps
          refine ⟨true, _, _, hps, by simp [hw], by simp, fun _ => ?_⟩
          rw [hstep, hanc0, hps]

/-- The dropped child record of `sTorn`. -/
def recTorn1 : NodeRec :=
  { value := 1, ancestors := some (0, 0), children := .empty, refcount := 1,
    next_free := NULL_WORD, free_count := 0 }

/-- Closed instance of `C5_last_drop_routing` at `sTorn` (free list torn
down): dropping the last handle of child 1 attempts the push, which fails
because the head is null, and the cascade runs. -/
theorem C5_witness :
    lookupNode sTorn 1 = some recTorn1 ∧ recTorn1.refcount = 1 ∧
    ((recTorn1.ancestors = none →
        node_drop id 3 sTorn 1 = drop_without_free_list id 3 (setRc sTorn 1 0) 1) ∧
      (∀ ro pa, recTorn1.ancestors = some (ro, pa) → 1 ≠ ro →
        ((getN sTorn ro).next_free).2 = false →
        ∃ b s2 tr, push_on_free_list (setRc sTorn 1 0) 1 = .ok (b, s2, tr) ∧
          (b = false ↔ (getN sTorn ro).next_free = NULL_WORD) ∧
          (b = false →
            node_drop id 3 sTorn 1 = drop_without_free_list id 3 (setRc sTorn 1 0) 1) ∧
          (b = true → node_drop id 3 sTorn 1 = .ok (s2, tr)))) :=
  ⟨by decide, by decide, C5_last_drop_routing id 3 sTorn 1 recTorn1 (by decide) (by decide)⟩

/-! ## Trace lemmas for the logging discipline -/

theorem log_depths_append (d : Int) (t1 t2 : List Ev) :
    log_depths d (t1 ++ t2) = log_depths d t1 ++ log_depths (d + depthDelta t1) t2 := by
  induction t1 generalizing d with
  | nil => simp [log_depths, depthDelta]
  | cons e t ih => simp [log_depths, depthDelta, ih, Int.add_assoc]

theorem log_depths_keyOfs (d : Int) (l : List NodeId) :
    log_depths d (l.map Ev.keyOfNode) = [] := by
  induction l with
  | nil => rfl
  | cons a l ih => simp [log_depths, isLogEv, evDepth, ih]

theorem sum_evDepth_keyOfs (l : List NodeId) :
    (l.map (evDepth ∘ Ev.keyOfNode)).sum = 0 := by
  induction l with
  | nil => rfl
  | cons a l ih => simpa [evDepth] using ih

theorem depthDelta_append (a b : List Ev) :
    depthDelta (a ++ b) = depthDelta a + depthDelta b := by
  simp [depthDelta]

/-- A successful `push_on_free_list` emits either no events or exactly the
free-lock acquisition and release; in particular no logger call. -/
theorem push_trace (s : St) (i : NodeId) (b : Bool) (s2 : St) (tr : List Ev)
    (h : push_on_free_list s i = .ok (b, s2, tr)) :
    tr = [] ∨ tr = [Ev.acqFree, Ev.relFree] := by
  unfold push_on_free_list at h
  split at h
  · exact absurd h (by simp)
  · dsimp only at h
    split at h
    · simp only [Except.ok.injEq, Prod.mk.injEq] at h
      exact Or.inl h.2.2.symm
    · split at h
      · simp only [Except.ok.injEq, Prod.mk.injEq] at h
        exact Or.inl h.2.2.symm
      · split at h
        · split at h
          · simp only [Except.ok.injEq, Prod.mk.injEq] at h
            exact Or.inr h.2.2.symm
          · simp only [Except.ok.injEq, Prod.mk.injEq] at h
            exact Or.inr h.2.2.symm
        · exact absurd h (by simp)

/-- Every trace of a successful reclamation cascade is lock-balanced and
every logger call in it is an `on_destroy` fired at lock depth 0 — after the
parent's write guard has been released. -/
theorem cascade_logs (kf : Nat → Nat) :
    ∀ fuel s i s2 tr, drop_without_free_list kf fuel s i = .ok (s2, tr) →
      depthDelta tr = 0 ∧
      ∀ p ∈ log_depths 0 tr, (∃ j, p.1 = Ev.logDrop j) ∧ p.2 = 0 := by
  intro fuel
  induction fuel with
  | zero =>
    intro s i s2 tr h
    exact absurd h (by simp [drop_without_free_list])
  | succ f ih =>
    intro s i s2 tr h
    unfold drop_without_free_list at h
    split at h
    · -- the node has a parent link
      split at h
      · -- resurrected: the cascade aborts, trace is a lock pair
        simp only [Except.ok.injEq, Prod.mk.injEq] at h
        obtain ⟨-, htr⟩ := h
        subst htr
        refine ⟨by simp [depthDelta, evDepth], ?_⟩
        intro p hp
        simp [log_depths, isLogEv, evDepth] at hp
      · dsimp only at h
        split at h
        · -- parent refcount reached zero: recurse
          split at h
          · exact absurd h (by simp)
          · rename_i hprior hmatch sx evs2 hrec
            simp only [Except.ok.injEq, Prod.mk.injEq] at h
            obtain ⟨hs2, htr⟩ := h
            subst htr
            obtain ⟨hd2, hl2⟩ := ih _ _ _ _ hrec
            simp only [depthDelta] at hd2
            constructor
            · simp [depthDelta, evDepth, sum_evDepth_keyOfs, hd2]
            · intro p hp
              simp only [List.cons_append, List.nil_append, List.append_assoc] at hp
              simp [log_depths, log_depths_append, log_depths_keyOfs, isLogEv, evDepth,
                depthDelta, sum_evDepth_keyOfs, hd2] at hp
              rcases hp with hp | hp
              · exact ⟨⟨i, by simp [hp]⟩, by simp [hp]⟩
              · exact hl2 p (by simpa using hp)
        · -- parent still referenced elsewhere: stop after this node
          simp only [Except.ok.injEq, Prod.mk.injEq] at h
          obtain ⟨hs2, htr⟩ := h
          subst htr
          constructor
          · simp [depthDelta, evDepth, sum_evDepth_keyOfs]
          · intro p hp
            simp only [List.cons_append, List.nil_append, List.append_assoc] at hp
            simp [log_depths, log_depths_append, log_depths_keyOfs, isLogEv, evDepth,
              depthDelta, sum_evDepth_keyOfs] at hp
            exact ⟨⟨i, by simp [hp]⟩, by simp [hp]⟩
    · -- no parent link: a single on_destroy, no lock held
      simp only [Except.ok.injEq, Prod.mk.injEq] at h
      obtain ⟨hs2, htr⟩ := h
      subst htr
      refine ⟨by simp [depthDelta, evDepth], ?_⟩
      intro p hp
      simp [log_depths, isLogEv, evDepth] at hp
      exact ⟨⟨i, by simp [hp]⟩, by simp [hp]⟩

/-- In every successful `ensure_child` trace, any logger call is an
`on_create` fired at lock depth 1: the parent's children lock, taken as
upgradable-read and upgraded to write on the creation path, is still held
when `log_new` runs. -/
theorem ensure_child_logs (kf : Nat → Nat) (s : St) (i : NodeId) (v : Nat)
    (c : NodeId) (s2 : St) (tr : List Ev)
    (h : ensure_child kf s i v = .ok (c, s2, tr)) :
    ∀ p ∈ log_depths 0 tr, (∃ j, p.1 = Ev.logNew j) ∧ p.2 = 1 := by
  unfold ensure_child at h
  dsimp only at h
  split at h
  · -- hit on the children map
    split at h
    · -- refcount revive: push path, no logger call
      split at h
      · exact absurd h (by simp)
      · rename_i child hprior b s3 tr3 hpush
        simp only [Except.ok.injEq, Prod.mk.injEq] at h
        obtain ⟨-, -, htr⟩ := h
        subst htr
        intro p hp
        rcases push_trace _ _ _ _ _ hpush with h0 | h0 <;>
          (subst h0;
           simp [log_depths, log_depths_append, log_depths_keyOfs, isLogEv, evDepth,
             depthDelta, sum_evDepth_keyOfs] at hp)
    · -- plain hit: no logger call at all
      simp only [Except.ok.injEq, Prod.mk.injEq] at h
      obtain ⟨-, -, htr⟩ := h
      subst htr
      intro p hp
      simp [log_depths, log_depths_append, log_depths_keyOfs, isLogEv, evDepth,
        depthDelta, sum_evDepth_keyOfs] at hp
  · -- miss: fresh creation, log_new fires under the upgraded write lock
    split at h
    · exact absurd h (by simp)
    · rename_i nid m s3 applied hins
      simp only [Except.ok.injEq, Prod.mk.injEq] at h
      obtain ⟨-, -, htr⟩ := h
      subst htr
      intro p hp
      simp only [List.cons_append, List.nil_append, List.append_assoc] at hp
      simp [log_depths, log_depths_append, log_depths_keyOfs, isLogEv, evDepth,
        depthDelta, sum_evDepth_keyOfs] at hp
      exact ⟨⟨nid, by simp [hp]⟩, by simp [hp]⟩

/-- C9, amended: `on_destroy` (`log_drop`) is always emitted outside any
lock — the cascade releases the parent's write guard before logging — and
`log_new` at tree creation is outside any lock, but `on_create` (`log_new`)
in `ensure_child` is emitted while the parent's children write lock is still
held (lock depth 1): the upgraded guard is only dropped at the end of the
function. -/
theorem C9_amended_logging_discipline :
    (∀ v, ∀ p ∈ log_depths 0 (tree_new v).2.2, (∃ j, p.1 = Ev.logNew j) ∧ p.2 = 0) ∧
    (∀ kf fuel s i s2 tr, drop_without_free_list kf fuel s i = .ok (s2, tr) →
      ∀ p ∈ log_depths 0 tr, (∃ j, p.1 = Ev.logDrop j) ∧ p.2 = 0) ∧
    (∀ kf s i v c s2 tr, ensure_child kf s i v = .ok (c, s2, tr) →
      ∀ p ∈ log_depths 0 tr, (∃ j, p.1 = Ev.logNew j) ∧ p.2 = 1) := by
  refine ⟨?_, ?_, ?_⟩
  · intro v p hp
    simp [tree_new, with_logger, alloc, log_depths, isLogEv, evDepth] at hp
    exact ⟨⟨0, by simp [hp]⟩, by simp [hp]⟩
  · intro kf fuel s i s2 tr h
    exact (cascade_logs kf fuel s i s2 tr h).2
  · exact ensure_child_logs

/-- The state after the cascade destroys node 1 of `sTorn`. -/
def sCascadedTorn : St :=
  { heap := [(0, { value := 0, ancestors := none, children := .empty, refcount := 1,
                   next_free := NULL_WORD, free_count := 0 })],
    next_id := 2 }

/-- The state after `ensure_child` creates a fresh grandchild of value 42
under node 1 of `sOneChild`. -/
def sGrandchild : St :=
  { heap := [
      (0, { value := 0, ancestors := none, children := .one 1, refcount := 2,
            next_free := DANGLING_WORD, free_count := 0 }),
      (1, { value := 1, ancestors := some (0, 0), children := .one 2, refcount := 2,
            next_free := NULL_WORD, free_count := 0 }),
      (2, { value := 42, ancestors := some (0, 1), children := .empty, refcount := 1,
            next_free := NULL_WORD, free_count := 0 })],
    next_id := 3 }

/-- Closed instances of `C9_amended_logging_discipline`: a concrete cascade
run whose `log_drop` fires at depth 0, and a concrete `ensure_child` run
whose `log_new` fires at depth 1. -/
theorem C9_amended_witness :
    (∀ p ∈ log_depths 0 [Ev.acqWrite 0, Ev.keyOfNode 1, Ev.keyOfNode 1, Ev.relLock 0,
        Ev.logDrop 1], (∃ j, p.1 = Ev.logDrop j) ∧ p.2 = 0) ∧
    (∀ p ∈ log_depths 0 [Ev.acqUpRead 1, Ev.keyOfArg, Ev.upgradeLock 1, Ev.logNew 2,
        Ev.relLock 1], (∃ j, p.1 = Ev.logNew j) ∧ p.2 = 1) :=
  ⟨C9_amended_logging_discipline.2.1 id 3 (setRc sTorn 1 0) 1 sCascadedTorn
      [Ev.acqWrite 0, Ev.keyOfNode 1, Ev.keyOfNode 1, Ev.relLock 0, Ev.logDrop 1] rfl,
   C9_amended_logging_discipline.2.2 id sOneChild 1 42 2 sGrandchild
      [Ev.acqUpRead 1, Ev.keyOfArg, Ev.upgradeLock 1, Ev.logNew 2, Ev.relLock 1] rfl⟩

/-! ## C10: the root value is never keyed -/


/-- The tree root is identified by an absent ancestors pair, sits below the
allocation watermark, and is stored in no children map. -/

def root_unkeyed (s : St) (r : NodeId) : Prop :=
  (∀ p ∈ s.heap, p.1 = r → p.2.ancestors = none) ∧ r < s.next_id ∧
  ∀ p ∈ s.heap, r ∉ Map.values p.2.children

theorem values_remove_sub {K A : Type} [DecidableEq K] (m : Map K A) (k : K)
    (kfv : A → K) : ∀ a ∈ (Map.remove m k kfv).2.1.values, a ∈ m.values := by
  intro a ha
  match m with
  | .empty => simp [Map.remove, Map.values] at ha
  | .one v =>
    by_cases hk : k = kfv v
    · simp [Map.remove, hk, Map.values] at ha
    · simp [Map.remove, hk, Map.values] at ha
      simp [Map.values, ha]
  | .hmap l =>
    simp only [Map.remove, hmRemove, Map.values, List.mem_map] at ha ⊢
    obtain ⟨p, hp, hpa⟩ := ha
    exact ⟨p, (List.mem_filter.mp hp).1, hpa⟩

theorem applied_remove_sub {K A : Type} [DecidableEq K] (m : Map K A) (k : K)
    (kfv : A → K) : ∀ a ∈ (Map.remove m k kfv).2.2, a ∈ m.values := by
  intro a ha
  match m with
  | .empty => simp [Map.remove] at ha
  | .one v =>
    by_cases hk : k = kfv v
    · simp [Map.remove, hk, Map.values] at ha
      simp [Map.values, ha]
    · simp [Map.remove, hk, Map.values] at ha
      simp [Map.values, ha]
  | .hmap l => simp [Map.remove, hmRemove] at ha

theorem applied_get_sub {K A : Type} [DecidableEq K] (m : Map K A) (k : K)
    (kfv : A → K) : ∀ a ∈ (Map.get m k kfv).2, a ∈ m.values := by
  intro a ha
  match m with
  | .empty => simp [Map.get] at ha
  | .one v =>
    simp [Map.get] at ha
    simp [Map.values, ha]
  | .hmap l => simp [Map.get] at ha

theorem mem_of_lookup {s : St} {i : NodeId} {rec : NodeRec}
    (h : lookupNode s i = some rec) : (i, rec) ∈ s.heap := by
  unfold lookupNode at h
  match hf : s.heap.find? fun p => p.1 == i with
  | none => rw [hf] at h; exact absurd h (by simp)
  | some q =>
    obtain ⟨a, b⟩ := q
    rw [hf] at h
    have hb : b = rec := by simpa using h
    have hq1 : a = i := by simpa using List.find?_some hf
    have hmem := List.mem_of_find?_eq_some hf
    rw [hq1, hb] at hmem
    exact hmem

theorem root_children_free (s : St) (r : NodeId) (h : root_unkeyed s r)
    (i : NodeId) : r ∉ (getN s i).children.values := by
  cases hl : lookupNode s i with
  | none =>
    unfold getN
    rw [hl]
    simp [Map.values, default]
  | some rec0 =>
    rw [getN_of_lookup hl]
    exact h.2.2 (i, rec0) (mem_of_lookup hl)

theorem root_anc_none (s : St) (r : NodeId) (h : root_unkeyed s r) :
    (getN s r).ancestors = none := by
  cases hl : lookupNode s r with
  | none => unfold getN; rw [hl]; rfl
  | some rec0 => rw [getN_of_lookup hl]; exact h.1 (r, rec0) (mem_of_lookup hl) rfl

theorem mem_setNode {s : St} {i : NodeId} {rec : NodeRec} :
    ∀ p ∈ (setNode s i rec).heap, p = (i, rec) ∨ p ∈ s.heap := by
  intro p hp
  unfold setNode at hp
  simp only [List.mem_map] at hp
  obtain ⟨q, hq, hfq⟩ := hp
  by_cases hqi : q.1 = i
  · rw [if_pos (show (q.1 == i) = true by simp [hqi])] at hfq
    exact Or.inl hfq.symm
  · rw [if_neg (show ¬(q.1 == i) = true by simp [hqi])] at hfq
    exact Or.inr (hfq ▸ hq)

theorem mem_removeNode {s : St} {i : NodeId} :
    ∀ p ∈ (removeNode s i).heap, p ∈ s.heap := by
  intro p hp
  exact (List.mem_filter.mp hp).1

theorem root_unkeyed_setNode (s : St) (i : NodeId) (rec : NodeRec) (r : NodeId)
    (h : root_unkeyed s r)
    (hanc : i = r → rec.ancestors = none)
    (hvals : r ∉ rec.children.values) :
    root_unkeyed (setNode s i rec) r := by
  obtain ⟨h1, h2, h3⟩ := h
  refine ⟨?_, h2, ?_⟩
  · intro p hp hpr
    rcases mem_setNode p hp with hpe | hpm
    · rw [hpe] at hpr ⊢
      exact hanc hpr
    · exact h1 p hpm hpr
  · intro p hp
    rcases mem_setNode p hp with hpe | hpm
    · rw [hpe]
      exact hvals
    · exact h3 p hpm

theorem root_unkeyed_setRc (s : St) (i : NodeId) (n : Nat) (r : NodeId)
    (h : root_unkeyed s r) : root_unkeyed (setRc s i n) r :=
  root_unkeyed_setNode s i _ r h
    (fun hir => by
      subst hir
      exact root_anc_none s i h)
    (root_children_free s r h i)

theorem root_unkeyed_setNextFree (s : St) (i : NodeId) (w : FreeWord) (r : NodeId)
    (h : root_unkeyed s r) : root_unkeyed (setNextFree s i w) r :=
  root_unkeyed_setNode s i _ r h
    (fun hir => by
      subst hir
      exact root_anc_none s i h)
    (root_children_free s r h i)

theorem root_unkeyed_setFreeCount (s : St) (i : NodeId) (n : Nat) (r : NodeId)
    (h : root_unkeyed s r) : root_unkeyed (setFreeCount s i n) r :=
  root_unkeyed_setNode s i _ r h
    (fun hir => by
      subst hir
      exact root_anc_none s i h)
    (root_children_free s r h i)

theorem root_unkeyed_setAncestorsNone (s : St) (i : NodeId) (r : NodeId)
    (h : root_unkeyed s r) : root_unkeyed (setAncestors s i none) r :=
  root_unkeyed_setNode s i _ r h (fun _ => rfl) (root_children_free s r h i)

theorem root_unkeyed_setChildren (s : St) (i : NodeId) (m : Map Nat NodeId)
    (r : NodeId) (h : root_unkeyed s r) (hm : r ∉ m.values) :
    root_unkeyed (setChildren s i m) r :=
  root_unkeyed_setNode s i _ r h
    (fun hir => by
      subst hir
      exact root_anc_none s i h)
    hm

theorem root_unkeyed_removeNode (s : St) (i : NodeId) (r : NodeId)
    (h : root_unkeyed s r) : root_unkeyed (removeNode s i) r := by
  obtain ⟨h1, h2, h3⟩ := h
  exact ⟨fun p hp => h1 p (mem_removeNode p hp),
         h2,
         fun p hp => h3 p (mem_removeNode p hp)⟩

theorem root_unkeyed_alloc (s : St) (rec : NodeRec) (r : NodeId)
    (h : root_unkeyed s r) (hvals : r ∉ rec.children.values) :
    root_unkeyed (alloc s rec).2 r := by
  obtain ⟨h1, h2, h3⟩ := h
  refine ⟨?_, Nat.lt_succ_of_lt h2, ?_⟩
  · intro p hp hpr
    simp only [alloc, List.mem_append, List.mem_singleton] at hp
    rcases hp with hp | hp
    · exact h1 p hp hpr
    · rw [hp] at hpr
      exact absurd (hpr ▸ h2) (Nat.lt_irrefl r)
  · intro p hp
    simp only [alloc, List.mem_append, List.mem_singleton] at hp
    rcases hp with hp | hp
    · exact h3 p hp
    · rw [hp]
      exact hvals



theorem cascade_no_root_key (kf : Nat → Nat) (r : NodeId) :
    ∀ fuel s i s2 tr, root_unkeyed s r →
      drop_without_free_list kf fuel s i = .ok (s2, tr) →
      root_unkeyed s2 r ∧ Ev.keyOfNode r ∉ tr := by
  intro fuel
  induction fuel with
  | zero =>
    intro s i s2 tr _ h
    exact absurd h (by simp [drop_without_free_list])
  | succ f ih =>
    intro s i s2 tr hr h
    unfold drop_without_free_list at h
    split at h
    · rename_i x fst pa heq
      have hir : i ≠ r := by
        intro he
        rw [he, root_anc_none s r hr] at heq
        exact absurd heq (by simp)
      split at h
      · -- resurrected: abort, state unchanged
        simp only [Except.ok.injEq, Prod.mk.injEq] at h
        obtain ⟨hs2, htr⟩ := h
        subst htr
        exact ⟨hs2 ▸ hr, by simp⟩
      · dsimp only at h
        have hr1 : root_unkeyed (setNextFree s i NULL_WORD) r :=
          root_unkeyed_setNextFree s i NULL_WORD r hr
        split at h
        · -- the parent's refcount dropped to zero: the cascade ascends
          split at h
          · exact absurd h (by simp)
          · rename_i hprior hmatch sx evs2 hrec
            simp only [Except.ok.injEq, Prod.mk.injEq] at h
            obtain ⟨hs2, htr⟩ := h
            have hres := ih _ _ _ _
              (root_unkeyed_setRc _ _ _ _
                (root_unkeyed_removeNode _ _ _
                  (root_unkeyed_setAncestorsNone _ _ _
                    (root_unkeyed_setChildren _ _ _ _ hr1
                      (fun hmem => root_children_free _ r hr1 pa
                        (values_remove_sub _ _ _ r hmem))))))
              hrec
            refine ⟨hs2 ▸ hres.1, ?_⟩
            rw [← htr]
            intro hmem
            simp only [List.mem_append, List.mem_cons, List.not_mem_nil, or_false,
              List.mem_map, Ev.keyOfNode.injEq] at hmem
            rcases hmem with ((((h1 | h2) | ⟨a, ha, hae⟩) | h3) | h4) | h5
            · exact absurd h1 (by simp)
            · exact hir h2.symm
            · exact root_children_free _ r hr1 pa
                (applied_remove_sub _ _ _ r (hae ▸ ha))
            · exact absurd h3 (by simp)
            · exact absurd h4 (by simp)
            · exact hres.2 h5
        · -- the parent is still referenced: stop after this node
          simp only [Except.ok.injEq, Prod.mk.injEq] at h
          obtain ⟨hs2, htr⟩ := h
          refine ⟨hs2 ▸
            (root_unkeyed_setRc _ _ _ _
              (root_unkeyed_removeNode _ _ _
                (root_unkeyed_setAncestorsNone _ _ _
                  (root_unkeyed_setChildren _ _ _ _ hr1
                    (fun hmem => root_children_free _ r hr1 pa
                      (values_remove_sub _ _ _ r hmem)))))), ?_⟩
          rw [← htr]
          intro hmem
          simp only [List.mem_append, List.mem_cons, List.not_mem_nil, or_false,
            List.mem_map, Ev.keyOfNode.injEq] at hmem
          rcases hmem with (((h1 | h2) | ⟨a, ha, hae⟩) | h3) | h4
          · exact absurd h1 (by simp)
          · exact hir h2.symm
          · exact root_children_free _ r hr1 pa
              (applied_remove_sub _ _ _ r (hae ▸ ha))
          · exact absurd h3 (by simp)
          · exact absurd h4 (by simp)
    · -- no parent: only a logDrop event
      simp only [Except.ok.injEq, Prod.mk.injEq] at h
      obtain ⟨hs2, htr⟩ := h
      subst htr
      exact ⟨hs2 ▸ root_unkeyed_removeNode s i r hr, by simp⟩



theorem push_no_root_key (r : NodeId) (s : St) (i : NodeId) (b : Bool) (s2 : St)
    (tr : List Ev) (hr : root_unkeyed s r)
    (h : push_on_free_list s i = .ok (b, s2, tr)) :
    root_unkeyed s2 r ∧ Ev.keyOfNode r ∉ tr := by
  have hkey : Ev.keyOfNode r ∉ tr := by
    rcases push_trace s i b s2 tr h with h0 | h0 <;> simp [h0]
  refine ⟨?_, hkey⟩
  unfold push_on_free_list at h
  split at h
  · exact absurd h (by simp)
  · dsimp only at h
    split at h
    · simp only [Except.ok.injEq, Prod.mk.injEq] at h
      exact h.2.1 ▸ hr
    · split at h
      · simp only [Except.ok.injEq, Prod.mk.injEq] at h
        exact h.2.1 ▸ hr
      · split at h
        · split at h
          · simp only [Except.ok.injEq, Prod.mk.injEq] at h
            exact h.2.1 ▸
              root_unkeyed_setNextFree _ _ _ r
                (root_unkeyed_setNextFree _ _ _ r hr)
          · simp only [Except.ok.injEq, Prod.mk.injEq] at h
            exact h.2.1 ▸
              root_unkeyed_setNextFree _ _ _ r
                (root_unkeyed_setNextFree _ _ _ r
                  (root_unkeyed_setFreeCount _ _ _ r
                    (root_unkeyed_setRc _ _ _ r
                      (root_unkeyed_setNextFree _ _ _ r hr))))
        · exact absurd h (by simp)

theorem node_drop_no_root_key (kf : Nat → Nat) (r : NodeId) (fuel : Nat) (s : St)
    (i : NodeId) (s2 : St) (tr : List Ev) (hr : root_unkeyed s r)
    (h : node_drop kf fuel s i = .ok (s2, tr)) :
    root_unkeyed s2 r ∧ Ev.keyOfNode r ∉ tr := by
  unfold node_drop at h
  dsimp only at h
  split at h
  · simp only [Except.ok.injEq, Prod.mk.injEq] at h
    exact ⟨h.1 ▸ root_unkeyed_setRc _ _ _ r hr, h.2 ▸ (by simp)⟩
  · split at h
    · exact cascade_no_root_key kf r fuel _ i s2 tr
        (root_unkeyed_setRc _ _ _ r hr) h
    · cases hpush : push_on_free_list (setRc s i ((getN s i).refcount - 1)) i with
      | error e => rw [hpush] at h; exact absurd h (by simp)
      | ok t =>
        obtain ⟨b, s3, evs3⟩ := t
        rw [hpush] at h
        have hp := push_no_root_key r _ i b s3 evs3
          (root_unkeyed_setRc _ _ _ r hr) hpush
        cases b
        · -- push failed: the cascade runs on the unchanged state
          cases hrec : drop_without_free_list kf fuel s3 i with
          | error e => simp [hrec] at h
          | ok t2 =>
            obtain ⟨sx, evs2⟩ := t2
            simp only [hrec] at h
            simp only [Except.ok.injEq, Prod.mk.injEq] at h
            obtain ⟨hs2, htr⟩ := h
            have hc := cascade_no_root_key kf r fuel s3 i sx evs2 hp.1 hrec
            refine ⟨hs2 ▸ hc.1, ?_⟩
            rw [← htr]
            intro hmem
            rcases List.mem_append.mp hmem with hm1 | hm2
            · exact hp.2 hm1
            · exact hc.2 hm2
        · -- push succeeded: the list owns the node
          simp only [Except.ok.injEq, Prod.mk.injEq] at h
          exact ⟨h.1 ▸ hp.1, h.2 ▸ hp.2⟩



theorem drain_no_root_key (kf : Nat → Nat) (r : NodeId) (cfuel : Nat) :
    ∀ dfuel s w s2 tr, root_unkeyed s r →
      gc_drain kf cfuel dfuel s w = .ok (s2, tr) →
      root_unkeyed s2 r ∧ Ev.keyOfNode r ∉ tr := by
  intro dfuel
  induction dfuel with
  | zero =>
    intro s w s2 tr _ h
    exact absurd h (by simp [gc_drain])
  | succ df ih =>
    intro s w s2 tr hr h
    unfold gc_drain at h
    split at h
    · simp only [Except.ok.injEq, Prod.mk.injEq] at h
      exact ⟨h.1 ▸ hr, h.2 ▸ (by simp)⟩
    · split at h
      · rename_i i bit heq
        dsimp only at h
        cases hdrop : node_drop kf cfuel (setNextFree s i NULL_WORD) i with
        | error e => rw [hdrop] at h; exact absurd h (by simp)
        | ok t =>
          obtain ⟨s3, evs3⟩ := t
          rw [hdrop] at h
          have hd := node_drop_no_root_key kf r cfuel _ i s3 evs3
            (root_unkeyed_setNextFree _ _ _ r hr) hdrop
          cases hrec : gc_drain kf cfuel df s3 (getN s i).next_free with
          | error e => simp [hrec] at h
          | ok t2 =>
            obtain ⟨sx, evs2⟩ := t2
            simp only [hrec] at h
            simp only [Except.ok.injEq, Prod.mk.injEq] at h
            obtain ⟨hs2, htr⟩ := h
            have hrest := ih s3 _ sx evs2 hd.1 hrec
            refine ⟨hs2 ▸ hrest.1, ?_⟩
            rw [← htr]
            intro hmem
            rcases List.mem_append.mp hmem with hm1 | hm2
            · exact hd.2 hm1
            · exact hrest.2 hm2
      · exact absurd h (by simp)

theorem swap_no_root_key (kf : Nat → Nat) (r : NodeId) (cfuel dfuel : Nat)
    (s : St) (rootId : NodeId) (p : FreeWord) (s2 : St) (tr : List Ev)
    (hr : root_unkeyed s r)
    (h : swap_free_list_and_gc kf cfuel dfuel s rootId p = .ok (s2, tr)) :
    root_unkeyed s2 r ∧ Ev.keyOfNode r ∉ tr := by
  unfold swap_free_list_and_gc at h
  dsimp only at h
  split at h
  · simp only [Except.ok.injEq, Prod.mk.injEq] at h
    exact ⟨h.1 ▸ hr, h.2 ▸ (by simp)⟩
  · split at h
    · exact drain_no_root_key kf r cfuel dfuel _ _ s2 tr
        (root_unkeyed_setNextFree _ _ _ r hr) h
    · exact absurd h (by simp)

theorem applied_goi_sub {K A σ : Type} [DecidableEq K] (m : Map K A) (k : K)
    (kfv : A → K) (nv : σ → Except String (A × σ)) (st : σ) (v : A)
    (m2 : Map K A) (st2 : σ) (applied : List A)
    (h : Map.get_or_insert_with m k kfv nv st = .ok (v, m2, st2, applied)) :
    ∀ a ∈ applied, a ∈ m.values := by
  intro a ha
  unfold Map.get_or_insert_with at h
  split at h
  · -- empty
    split at h
    · exact absurd h (by simp)
    · simp only [Except.ok.injEq, Prod.mk.injEq] at h
      rw [← h.2.2.2] at ha
      exact absurd ha (by simp)
  · -- one
    rename_i one_v
    dsimp only at h
    split at h
    · simp only [Except.ok.injEq, Prod.mk.injEq] at h
      rw [← h.2.2.2] at ha
      simp at ha
      simp [Map.values, ha]
    · simp only [hmInsert, hmGet, List.find?, Option.map_none] at h
      exact absurd h (by simp)
  · -- hmap
    split at h
    · exact absurd h (by simp)
    · simp only [Except.ok.injEq, Prod.mk.injEq] at h
      rw [← h.2.2.2] at ha
      exact absurd ha (by simp)



theorem ensure_child_no_root_key (kf : Nat → Nat) (r : NodeId) (s : St) (i : NodeId)
    (v : Nat) (c : NodeId) (s2 : St) (tr : List Ev) (hr : root_unkeyed s r)
    (h : ensure_child kf s i v = .ok (c, s2, tr)) :
    Ev.keyOfNode r ∉ tr := by
  unfold ensure_child at h
  dsimp only at h
  split at h
  · rename_i child hget
    split at h
    · cases hpush : push_on_free_list (setRc s child ((getN s child).refcount + 1)) child with
      | error e => rw [hpush] at h; exact absurd h (by simp)
      | ok t =>
        obtain ⟨b, s3, tr3⟩ := t
        rw [hpush] at h
        simp only [Except.ok.injEq, Prod.mk.injEq] at h
        obtain ⟨-, -, htr⟩ := h
        subst htr
        intro hmem
        have hg2 : r ∉ (Map.get (getN s i).children (kf v)
            (fun c => kf (getN s c).value)).2 :=
          fun hmem2 => root_children_free s r hr i (applied_get_sub _ _ _ r hmem2)
        have htr3 : Ev.keyOfNode r ∉ tr3 := by
          rcases push_trace _ _ _ _ _ hpush with h0 | h0 <;> simp [h0]
        simp [hg2, htr3] at hmem
    · simp only [Except.ok.injEq, Prod.mk.injEq] at h
      obtain ⟨-, -, htr⟩ := h
      subst htr
      intro hmem
      have hg2 : r ∉ (Map.get (getN s i).children (kf v)
          (fun c => kf (getN s c).value)).2 :=
        fun hmem2 => root_children_free s r hr i (applied_get_sub _ _ _ r hmem2)
      simp [hg2] at hmem
  · split at h
    · exact absurd h (by simp)
    · rename_i nid m s3 applied hins
      simp only [Except.ok.injEq, Prod.mk.injEq] at h
      obtain ⟨-, -, htr⟩ := h
      subst htr
      intro hmem
      have hg2 : r ∉ (Map.get (getN s i).children (kf v)
          (fun c => kf (getN s c).value)).2 :=
        fun hmem2 => root_children_free s r hr i (applied_get_sub _ _ _ r hmem2)
      have happ : r ∉ applied :=
        fun hm => root_children_free s r hr i
          (applied_goi_sub _ _ _ _ _ _ _ _ _ hins r hm)
      simp [hg2, happ] at hmem



/-- C10: no operation of the core — `Tree::new`/`with_logger`,
`ensure_child`, handle clone and drop, `push_on_free_list`, the reclamation
cascade, `gc`, `maybe_gc`, tree drop — ever applies the key function to the
root node's value: in every trace, no `keyOfNode` event names the root
(the node with an absent ancestors pair, stored in no children map). -/
theorem C10_root_value_never_keyed (kf : Nat → Nat) (s : St) (r : NodeId)
    (hr : root_unkeyed s r) :
    (∀ v, Ev.keyOfNode r ∉ (tree_new v).2.2) ∧
    (∀ i, Ev.keyOfNode r ∉ (node_clone s i).2) ∧
    (∀ i v c s2 tr, ensure_child kf s i v = .ok (c, s2, tr) → Ev.keyOfNode r ∉ tr) ∧
    (∀ i b s2 tr, push_on_free_list s i = .ok (b, s2, tr) → Ev.keyOfNode r ∉ tr) ∧
    (∀ fuel i s2 tr, drop_without_free_list kf fuel s i = .ok (s2, tr) →
      Ev.keyOfNode r ∉ tr) ∧
    (∀ fuel i s2 tr, node_drop kf fuel s i = .ok (s2, tr) → Ev.keyOfNode r ∉ tr) ∧
    (∀ rootId s2 tr, Tree.gc kf s rootId = .ok (s2, tr) → Ev.keyOfNode r ∉ tr) ∧
    (∀ rootId s2 tr, Tree.maybe_gc kf s rootId = .ok (s2, tr) → Ev.keyOfNode r ∉ tr) ∧
    (∀ rootId s2 tr, Tree.tree_drop kf s rootId = .ok (s2, tr) → Ev.keyOfNode r ∉ tr) := by
  refine ⟨?_, ?_, ?_, ?_, ?_, ?_, ?_, ?_, ?_⟩
  · intro v
    simp [tree_new, with_logger, alloc]
  · intro i
    simp [node_clone]
  · intro i v c s2 tr h
    exact ensure_child_no_root_key kf r s i v c s2 tr hr h
  · intro i b s2 tr h
    exact (push_no_root_key r s i b s2 tr hr h).2
  · intro fuel i s2 tr h
    exact (cascade_no_root_key kf r fuel s i s2 tr hr h).2
  · intro fuel i s2 tr h
    exact (node_drop_no_root_key kf r fuel s i s2 tr hr h).2
  · intro rootId s2 tr h
    unfold Tree.gc at h
    exact (swap_no_root_key kf r _ _ s rootId _ s2 tr hr h).2
  · intro rootId s2 tr h
    unfold Tree.maybe_gc at h
    split at h
    · unfold Tree.gc at h
      exact (swap_no_root_key kf r _ _ s rootId _ s2 tr hr h).2
    · simp only [Except.ok.injEq, Prod.mk.injEq] at h
      rw [← h.2]
      simp
  · intro rootId s2 tr h
    unfold Tree.tree_drop at h
    cases hswap : swap_free_list_and_gc kf (bigFuel s) (bigFuel s) s rootId NULL_WORD with
    | error e => rw [hswap] at h; exact absurd h (by simp)
    | ok t =>
      obtain ⟨s3, evs3⟩ := t
      rw [hswap] at h
      have h1 := swap_no_root_key kf r _ _ s rootId _ s3 evs3 hr hswap
      cases hdrop : node_drop kf (bigFuel s3) s3 rootId with
      | error e => simp [hdrop] at h
      | ok t2 =>
        obtain ⟨sx, evs2⟩ := t2
        simp only [hdrop] at h
        simp only [Except.ok.injEq, Prod.mk.injEq] at h
        rw [← h.2]
        intro hmem
        rcases List.mem_append.mp hmem with hm | hm
        · exact h1.2 hm
        · exact (node_drop_no_root_key kf r _ s3 rootId sx evs2 h1.1 hdrop).2 hm



/-- Closed instance of `C10_root_value_never_keyed` on `sOneChild` with the
root node 0. -/
theorem C10_witness :
    root_unkeyed sOneChild 0 ∧
    ((∀ v, Ev.keyOfNode 0 ∉ (tree_new v).2.2) ∧
     (∀ i, Ev.keyOfNode 0 ∉ (node_clone sOneChild i).2) ∧
     (∀ i v c s2 tr, ensure_child id sOneChild i v = .ok (c, s2, tr) →
       Ev.keyOfNode 0 ∉ tr) ∧
     (∀ i b s2 tr, push_on_free_list sOneChild i = .ok (b, s2, tr) →
       Ev.keyOfNode 0 ∉ tr) ∧
     (∀ fuel i s2 tr, drop_without_free_list id fuel sOneChild i = .ok (s2, tr) →
       Ev.keyOfNode 0 ∉ tr) ∧
     (∀ fuel i s2 tr, node_drop id fuel sOneChild i = .ok (s2, tr) →
       Ev.keyOfNode 0 ∉ tr) ∧
     (∀ rootId s2 tr, Tree.gc id sOneChild rootId = .ok (s2, tr) →
       Ev.keyOfNode 0 ∉ tr) ∧
     (∀ rootId s2 tr, Tree.maybe_gc id sOneChild rootId = .ok (s2, tr) →
       Ev.keyOfNode 0 ∉ tr) ∧
     (∀ rootId s2 tr, Tree.tree_drop id sOneChild rootId = .ok (s2, tr) →
       Ev.keyOfNode 0 ∉ tr)) :=
  ⟨by unfold root_unkeyed; decide,
   C10_root_value_never_keyed id sOneChild 0 (by unfold root_unkeyed; decide)⟩

end RecyclingTree
